import Mathlib

/-!
Verification of `src/timelock_key_sharing.rs` (Project Schrödinger's timelock
key-sharding demo).

Conventions of the shallow embedding:
* Rust bytes (`u8`) are `Nat` values; operations that could leave the range
  `0..256` carry an explicit `% 256` exactly where the Rust code casts.
* Rust `u32`/`u64` arithmetic is `Nat` with explicit `% 2^32` / `% 2^64`.
* A Rust `String` of key material is represented by its UTF-8 byte sequence
  (`List Nat`); a hex string is a `List Char`.
* `Result<T, String>` becomes `Except RErr T`, where each `RErr` constructor
  stands for one error-message production site of the source (the format
  arguments are carried as constructor fields).
* The `panic!` in `LCS35::shard` is modelled by `Option`: `none` is the panic.
* The external crates used by the source are embedded concretely:
  `sha2::Sha256` as FIPS 180-4 SHA-256, `hex` as lowercase hex encode /
  case-insensitive decode, and `String::from_utf8` as the standard UTF-8
  well-formedness check (Unicode Table 3-7).
-/

namespace Timelock

/-- A byte string: list of `Nat`, each in `0..256` wherever the source has `u8`. -/
abbrev Bytes := List Nat

/-! ## SHA-256 (the `sha2` crate), FIPS 180-4 over byte lists -/

/-- Truncate to 32 bits (`u32` wrap-around). -/
def w32 (x : Nat) : Nat := x % 4294967296

/-- 32-bit right rotation. -/
def rotr32 (n x : Nat) : Nat := w32 ((x >>> n) ||| (x <<< (32 - n)))

/-- SHA-256 round constants (FIPS 180-4, written in decimal). -/
def shaK : List Nat :=
  [1116352408, 1899447441, 3049323471, 3921009573, 961987163,
   1508970993, 2453635748, 2870763221, 3624381080, 310598401,
   607225278, 1426881987, 1925078388, 2162078206, 2614888103,
   3248222580, 3835390401, 4022224774, 264347078, 604807628,
   770255983, 1249150122, 1555081692, 1996064986, 2554220882,
   2821834349, 2952996808, 3210313671, 3336571891, 3584528711,
   113926993, 338241895, 666307205, 773529912, 1294757372,
   1396182291, 1695183700, 1986661051, 2177026350, 2456956037,
   2730485921, 2820302411, 3259730800, 3345764771, 3516065817,
   3600352804, 4094571909, 275423344, 430227734, 506948616,
   659060556, 883997877, 958139571, 1322822218, 1537002063,
   1747873779, 1955562222, 2024104815, 2227730452, 2361852424,
   2428436474, 2756734187, 3204031479, 3329325298]

/-- SHA-256 initial hash state (FIPS 180-4, written in decimal). -/
def shaH0 : List Nat :=
  [1779033703, 3144134277, 1013904242, 2773480762,
   1359893119, 2600822924, 528734635, 1541459225]

/-- Bitwise complement within 32 bits. -/
def not32 (x : Nat) : Nat := Nat.xor x 4294967295

def shaCh (x y z : Nat) : Nat := Nat.xor (Nat.land x y) (Nat.land (not32 x) z)

def shaMaj (x y z : Nat) : Nat :=
  Nat.xor (Nat.xor (Nat.land x y) (Nat.land x z)) (Nat.land y z)

def bigSigma0 (x : Nat) : Nat :=
  Nat.xor (Nat.xor (rotr32 2 x) (rotr32 13 x)) (rotr32 22 x)

def bigSigma1 (x : Nat) : Nat :=
  Nat.xor (Nat.xor (rotr32 6 x) (rotr32 11 x)) (rotr32 25 x)

def smallSigma0 (x : Nat) : Nat :=
  Nat.xor (Nat.xor (rotr32 7 x) (rotr32 18 x)) (x >>> 3)

def smallSigma1 (x : Nat) : Nat :=
  Nat.xor (Nat.xor (rotr32 17 x) (rotr32 19 x)) (x >>> 10)

/-- Big-endian grouping of bytes into 32-bit words. -/
def bytesToWords : Bytes → List Nat
  | b0 :: b1 :: b2 :: b3 :: rest =>
      (((b0 * 256 + b1) * 256 + b2) * 256 + b3) :: bytesToWords rest
  | _ => []

/-- Big-endian bytes of a 32-bit word. -/
def wordToBytes (x : Nat) : Bytes :=
  [x / 16777216 % 256, x / 65536 % 256, x / 256 % 256, x % 256]

/-- Big-endian bytes of the 64-bit message length. -/
def len64BE (n : Nat) : Bytes :=
  [n / 2 ^ 56 % 256, n / 2 ^ 48 % 256, n / 2 ^ 40 % 256, n / 2 ^ 32 % 256,
   n / 2 ^ 24 % 256, n / 2 ^ 16 % 256, n / 2 ^ 8 % 256, n % 256]

/-- SHA-256 padding: append `0x80`, zero bytes to 56 mod 64, then the bit length. -/
def shaPad (msg : Bytes) : Bytes :=
  msg ++ 0x80 :: List.replicate ((119 - msg.length % 64) % 64) 0
      ++ len64BE (8 * msg.length)

/-- One step of the message-schedule extension; the accumulator holds the words
most recent first. -/
def scheduleStep (w : List Nat) : List Nat :=
  w32 (smallSigma1 (w.getD 1 0) + w.getD 6 0 + smallSigma0 (w.getD 14 0) + w.getD 15 0) :: w

/-- Full 64-word message schedule from the 16 words of a block. -/
def buildSchedule (w16 : List Nat) : List Nat :=
  ((List.range 48).foldl (fun acc _ => scheduleStep acc) w16.reverse).reverse

/-- One SHA-256 compression round; the state is `[a, b, c, d, e, f, g, h]`. -/
def shaRound (st : List Nat) (kt wt : Nat) : List Nat :=
  let a := st.getD 0 0
  let b := st.getD 1 0
  let c := st.getD 2 0
  let d := st.getD 3 0
  let e := st.getD 4 0
  let f := st.getD 5 0
  let g := st.getD 6 0
  let h := st.getD 7 0
  let t1 := w32 (h + bigSigma1 e + shaCh e f g + kt + wt)
  let t2 := w32 (bigSigma0 a + shaMaj a b c)
  [w32 (t1 + t2), a, b, c, w32 (d + t1), e, f, g]

/-- Compress one 64-byte block into the running hash state. -/
def compressBlock (h : List Nat) (block : Bytes) : List Nat :=
  let ws := buildSchedule (bytesToWords block)
  let st := (shaK.zip ws).foldl (fun st kw => shaRound st kw.1 kw.2) h
  (h.zip st).map (fun p => w32 (p.1 + p.2))

/-- Split a byte list into 64-byte chunks. -/
def chunks64 (l : Bytes) : List Bytes :=
  if h : l = [] then [] else l.take 64 :: chunks64 (l.drop 64)
termination_by l.length
decreasing_by
  have hp : 0 < l.length := List.length_pos.mpr h
  simp [List.length_drop]
  omega

/-- SHA-256 of a byte string (the `sha2::Sha256` digest). -/
def sha256 (msg : Bytes) : Bytes :=
  ((chunks64 (shaPad msg)).foldl compressBlock shaH0).map wordToBytes |>.flatten

/-! ## The `hex` crate -/

/-- Lowercase hex digit for a value in `0..16`. -/
def hexDigit (n : Nat) : Char :=
  if n < 10 then Char.ofNat (48 + n) else Char.ofNat (87 + n)

/-- Model of `hex::encode`: two lowercase digits per byte. -/
def hexEncode (bs : Bytes) : List Char :=
  (bs.map (fun b => [hexDigit (b / 16), hexDigit (b % 16)])).flatten

/-- Value of one hex digit; `none` on a non-hex character. -/
def hexDigitVal (c : Char) : Option Nat :=
  if 48 ≤ c.toNat ∧ c.toNat ≤ 57 then some (c.toNat - 48)
  else if 97 ≤ c.toNat ∧ c.toNat ≤ 102 then some (c.toNat - 87)
  else if 65 ≤ c.toNat ∧ c.toNat ≤ 70 then some (c.toNat - 55)
  else none

/-- Model of `hex::decode`: fails on odd length or an invalid character. -/
def hexDecode : List Char → Option Bytes
  | [] => some []
  | [_] => none
  | c₁ :: c₂ :: rest => do
      let hi ← hexDigitVal c₁
      let lo ← hexDigitVal c₂
      let tail ← hexDecode rest
      pure ((16 * hi + lo) :: tail)

/-! ## UTF-8 well-formedness (`String::from_utf8`) -/

/-- A UTF-8 continuation byte, `0x80..=0xBF`. -/
def isCont (b : Nat) : Bool := decide (128 ≤ b ∧ b ≤ 191)

/-- Well-formed UTF-8 byte sequences, Unicode Table 3-7 (what Rust's
`String::from_utf8` accepts). -/
def validUtf8 : Bytes → Bool
  | [] => true
  | b :: rest =>
    if b < 128 then validUtf8 rest
    else if 194 ≤ b ∧ b ≤ 223 then
      match rest with
      | c₁ :: r => isCont c₁ && validUtf8 r
      | [] => false
    else if b = 224 then
      match rest with
      | c₁ :: c₂ :: r => decide (160 ≤ c₁ ∧ c₁ ≤ 191) && isCont c₂ && validUtf8 r
      | _ => false
    else if 225 ≤ b ∧ b ≤ 236 then
      match rest with
      | c₁ :: c₂ :: r => isCont c₁ && isCont c₂ && validUtf8 r
      | _ => false
    else if b = 237 then
      match rest with
      | c₁ :: c₂ :: r => decide (128 ≤ c₁ ∧ c₁ ≤ 159) && isCont c₂ && validUtf8 r
      | _ => false
    else if 238 ≤ b ∧ b ≤ 239 then
      match rest with
      | c₁ :: c₂ :: r => isCont c₁ && isCont c₂ && validUtf8 r
      | _ => false
    else if b = 240 then
      match rest with
      | c₁ :: c₂ :: c₃ :: r =>
          decide (144 ≤ c₁ ∧ c₁ ≤ 191) && isCont c₂ && isCont c₃ && validUtf8 r
      | _ => false
    else if 241 ≤ b ∧ b ≤ 243 then
      match rest with
      | c₁ :: c₂ :: c₃ :: r => isCont c₁ && isCont c₂ && isCont c₃ && validUtf8 r
      | _ => false
    else if b = 244 then
      match rest with
      | c₁ :: c₂ :: c₃ :: r =>
          decide (128 ≤ c₁ ∧ c₁ ≤ 143) && isCont c₂ && isCont c₃ && validUtf8 r
      | _ => false
    else false

/-! ## Error values

Each constructor models one error-`String` production site of the source,
carrying the `format!` arguments as fields:
* `notEnoughShards` — `"Not enough shards provided"` (`LCS35::unlock`);
* `needAtLeast t got` — `"Need at least {t} shards, but only {got} provided"`
  (`TimelockKeySharding::reconstruct_key`);
* `hexDecodeFailed` — `"Failed to decode hex: {e}"`;
* `notUtf8` — `"Reconstructed key is not valid UTF-8"`.
-/
inductive RErr where
  | notEnoughShards : RErr
  | needAtLeast (t got : Nat) : RErr
  | hexDecodeFailed : RErr
  | notUtf8 : RErr
deriving DecidableEq

/-! ## `silurian_puzzle::LCS35` -/

structure LCS35 where
  difficulty : Nat
  iterations : Nat
deriving DecidableEq

/-- Model of `LCS35::new`: `iterations = 2u64.pow(difficulty)` (u64 arithmetic). -/
def LCS35.new (difficulty : Nat) : LCS35 :=
  { difficulty := difficulty, iterations := 2 ^ difficulty % 2 ^ 64 }

/-- Little-endian bytes of a `u64` (`iterations.to_le_bytes()`). -/
def leBytes8 (n : Nat) : Bytes :=
  (List.range 8).map (fun i => n / 256 ^ i % 256)

/-- The polynomial-coefficient list built inside `LCS35::shard`:
`num_shards - 1` copies of `Sha256(key ‖ iterations.to_le_bytes())`.
The source computes this list and never reads it again. -/
def LCS35.shardCoefficients (self : LCS35) (key : Bytes) (numShards : Nat) : List Bytes :=
  (List.range (numShards - 1)).map (fun _ => sha256 (key ++ leBytes8 self.iterations))

/-- Iterated SHA-256, `n` extra rounds (the `for _ in 0..10` rehashing loop). -/
def iterSha : Nat → Bytes → Bytes
  | 0, h => h
  | n + 1, h => iterSha n (sha256 h)

/-- One shard for index byte `x`: the index byte followed by
`Sha256` iterated 10 further times on `Sha256(key ‖ [x])`. -/
def shardOne (key : Bytes) (x : Nat) : Bytes :=
  x :: iterSha 10 (sha256 (key ++ [x]))

/-- The shard list for `i = 1..=num_shards`, with `x_value = i as u8`. -/
def shardList (key : Bytes) (numShards : Nat) : List Bytes :=
  (List.range' 1 numShards).map (fun i => shardOne key (i % 256))

/-- Model of `LCS35::shard`; `none` models the panicking branch on `num_shards < 2`. -/
def LCS35.shard (self : LCS35) (key : Bytes) (numShards : Nat) : Option (List Bytes) :=
  if numShards < 2 then none
  else
    let _coeffs := self.shardCoefficients key numShards
    some (shardList key numShards)

/-- The inner loop of `LCS35::unlock`: `key[i] ^= byte` for `(i, byte)` in
`shard.iter().skip(1).take(32).enumerate()`; entries of `key` beyond the
shard body are left unchanged. -/
def applyShard (key shard : Bytes) : Bytes :=
  (List.range key.length).map
    (fun i =>
      if i < ((shard.drop 1).take 32).length then
        key.getD i 0 ^^^ ((shard.drop 1).take 32).getD i 0
      else key.getD i 0)

/-- Model of `LCS35::unlock`: error when fewer than `threshold` shards; otherwise XOR
the bodies of the first `threshold` shards into `vec![0u8; 32]`. -/
def LCS35.unlock (_self : LCS35) (shards : List Bytes) (threshold : Nat) : Except RErr Bytes :=
  if shards.length < threshold then .error .notEnoughShards
  else .ok ((shards.take threshold).foldl applyShard (List.replicate 32 0))

/-! ## `TimelockKeySharding` -/

structure TimelockKeySharding where
  difficulty : Nat
  threshold : Nat
deriving DecidableEq

/-- Model of `TimelockKeySharding::new` — stores both parameters, with no validation. -/
def TimelockKeySharding.new (difficulty threshold : Nat) : TimelockKeySharding :=
  { difficulty := difficulty, threshold := threshold }

/-- Model of `TimelockKeySharding::shard_key`: shard the key bytes with a fresh
`LCS35::new(self.difficulty)` puzzle, then hex-encode each shard. -/
def TimelockKeySharding.shard_key (self : TimelockKeySharding) (key : Bytes)
    (numShards : Nat) : Option (List (List Char)) :=
  ((LCS35.new self.difficulty).shard key numShards).map (fun ss => ss.map hexEncode)

/-- Model of `shards.iter().map(hex::decode).collect::<Result<_, _>>()`; the first failure wins. -/
def decodeAll : List (List Char) → Option (List Bytes)
  | [] => some []
  | s :: rest => do
      let b ← hexDecode s
      let bs ← decodeAll rest
      pure (b :: bs)

/-- Model of `TimelockKeySharding::reconstruct_key`. -/
def TimelockKeySharding.reconstruct_key (self : TimelockKeySharding)
    (shards : List (List Char)) : Except RErr Bytes :=
  if shards.length < self.threshold then
    .error (.needAtLeast self.threshold shards.length)
  else
    match decodeAll shards with
    | none => .error .hexDecodeFailed
    | some binaryShards =>
      match (LCS35.new self.difficulty).unlock binaryShards self.threshold with
      | .error e => .error e
      | .ok keyBytes =>
        if validUtf8 keyBytes then .ok keyBytes else .error .notUtf8

/-! ## The statistical checks -/

/-- Zero bits counted by `check_borel_regularity`: for each byte, the loop
tests `(byte >> i) & 1 == 0` for `i = 0..8`. -/
def bitZeros (data : Bytes) : Nat :=
  data.foldl (fun z b => z + (List.range 8).countP (fun i => (b >>> i) % 2 == 0)) 0

/-- One bits counted by `check_borel_regularity`. -/
def bitOnes (data : Bytes) : Nat :=
  data.foldl (fun o b => o + (List.range 8).countP (fun i => (b >>> i) % 2 != 0)) 0

/-- Model of `f64::abs`, on the exactly-represented rational values used here. -/
def fabs (q : ℚ) : ℚ := if q < 0 then -q else q

/-- Model of `TimelockKeySharding::check_borel_regularity`: flags the sample when the
zero-bit ratio is strictly within `0.01` of `0.5`. The `f64` arithmetic is
modelled exactly over `ℚ` (`0.0 / 0.0` for empty data is `NaN` in the source,
whose comparison is also false, matching `0 / 0 = 0` here). -/
def check_borel_regularity (data : Bytes) : Bool :=
  let zeros := bitZeros data
  let ones := bitOnes data
  let total := zeros + ones
  let frac : ℚ := (zeros : ℚ) / (total : ℚ)
  decide (fabs (frac - 1 / 2) < 1 / 100)

/-- Model of `TimelockKeySharding::calculate_entropy`: Shannon entropy in bits over the
256 byte-value counts. The `f64` arithmetic is modelled over `ℝ`. -/
noncomputable def calculate_entropy (data : Bytes) : ℝ :=
  (-(∑ b ∈ Finset.range 256,
      if 0 < data.count b then
        ((data.count b : ℝ) / (data.length : ℝ)) *
          Real.logb 2 ((data.count b : ℝ) / (data.length : ℝ))
      else 0))

/-- The demo key of `main`: `"supersecret_ai_model_encryption_key_2024"`
(ASCII, so the char codes are exactly the UTF-8 bytes of `key.as_bytes()`). -/
def demoKey : Bytes :=
  "supersecret_ai_model_encryption_key_2024".toList.map Char.toNat

/-! ## Helper lemmas -/

lemma applyShard_length (key s : Bytes) : (applyShard key s).length = key.length := by
  simp [applyShard]

lemma applyShard_getD (key s : Bytes) (i : Nat) (h : i < key.length) :
    (applyShard key s).getD i 0 = key.getD i 0 ^^^ ((s.drop 1).take 32).getD i 0 := by
  have hlen : i < (applyShard key s).length := by rw [applyShard_length]; exact h
  unfold applyShard at hlen ⊢
  rw [List.getD_eq_getElem _ _ hlen, List.getElem_map, List.getElem_range]
  split
  · rfl
  · rename_i hge
    rw [List.getD_eq_default _ _ (Nat.le_of_not_lt hge), Nat.xor_zero]

lemma applyShard_applyShard (key s : Bytes) :
    applyShard (applyShard key s) s = key := by
  have hl : (applyShard (applyShard key s) s).length = key.length := by
    rw [applyShard_length, applyShard_length]
  apply List.ext_getElem hl
  intro i h₁ h₂
  have hk : i < key.length := h₂
  have hk₁ : i < (applyShard key s).length := by rw [applyShard_length]; exact hk
  rw [← List.getD_eq_getElem _ 0 h₁, ← List.getD_eq_getElem _ 0 h₂,
    applyShard_getD _ _ _ hk₁, applyShard_getD _ _ _ hk,
    Nat.xor_assoc, Nat.xor_self, Nat.xor_zero]

lemma foldl_applyShard_length (l : List Bytes) (key : Bytes) :
    (l.foldl applyShard key).length = key.length := by
  induction l generalizing key with
  | nil => rfl
  | cons s rest ih => rw [List.foldl_cons, ih, applyShard_length]

lemma decodeAll_length : ∀ {ss : List (List Char)} {bs : List Bytes},
    decodeAll ss = some bs → bs.length = ss.length := by
  intro ss
  induction ss with
  | nil =>
    intro bs h
    simp only [decodeAll, Option.some.injEq] at h
    subst h; rfl
  | cons s rest ih =>
    intro bs h
    simp only [decodeAll, bind, pure, Option.bind_eq_some, Option.some.injEq] at h
    obtain ⟨b, _, bs₂, hbs₂, rfl⟩ := h
    simp [ih hbs₂]

lemma shardList_length (key : Bytes) (n : Nat) : (shardList key n).length = n := by
  simp [shardList]

/-- Every `Ok` value of `reconstruct_key` is exactly 32 bytes long: it is the
XOR accumulator initialised as `vec![0u8; 32]`. -/
lemma reconstruct_ok_length (self : TimelockKeySharding) (ss : List (List Char))
    (v : Bytes) (h : self.reconstruct_key ss = .ok v) : v.length = 32 := by
  unfold TimelockKeySharding.reconstruct_key at h
  split at h
  · exact absurd h (by simp)
  · split at h
    · exact absurd h (by simp)
    · rename_i bins _
      split at h
      · exact absurd h (by simp)
      · rename_i keyBytes hequ
        split at h
        · have hv : keyBytes = v := Except.ok.inj h
          unfold LCS35.unlock at hequ
          split at hequ
          · exact absurd hequ (by simp)
          · have hkb : (bins.take self.threshold).foldl applyShard (List.replicate 32 0) = keyBytes :=
              Except.ok.inj hequ
            rw [← hv, ← hkb, foldl_applyShard_length, List.length_replicate]
        · exact absurd h (by simp)

/-! ## Claims -/

/-- Claim C1. The round-trip identity
`reconstruct_key(shard_key(secret, N, T, d)[any T-subset]) == secret` fails on
the code at the repository's own demo input (`main`): with the 40-byte demo
key, `N = 5`, `T = 3`, difficulty `10`, reconstructing from the first 3 of the
5 generated shards does not return the secret — `reconstruct_key`'s successful
result is always the 32-byte XOR of shard hash bodies, never the key. -/
theorem c1_demo_roundtrip_fails :
    ((TimelockKeySharding.new 10 3).shard_key demoKey 5).map
      (fun res => (TimelockKeySharding.new 10 3).reconstruct_key (res.take 3)) ≠
      some (Except.ok demoKey) := by
  intro h
  cases hs : (TimelockKeySharding.new 10 3).shard_key demoKey 5 with
  | none => rw [hs] at h; simp at h
  | some res =>
    rw [hs] at h
    simp only [Option.map_some', Option.some.injEq] at h
    have h32 := reconstruct_ok_length _ _ _ h
    have h40 : demoKey.length = 40 := by rfl
    rw [h40] at h32
    exact absurd h32 (by norm_num)

/-- Claim C2. The code performs no modular squaring at all during `unlock`:
`LCS35::new` does compute `iterations = 2^difficulty` (`2^10 = 1024`), but
`unlock` never reads it — its result is entirely independent of the difficulty,
at the `LCS35` level and at the `reconstruct_key` level. -/
theorem c2_unlock_ignores_difficulty :
    (LCS35.new 10).iterations = 1024 ∧
    (∀ (d d' : Nat) (shards : List Bytes) (t : Nat),
      (LCS35.new d).unlock shards t = (LCS35.new d').unlock shards t) ∧
    (∀ (d d' t : Nat) (shards : List (List Char)),
      (TimelockKeySharding.new d t).reconstruct_key shards =
        (TimelockKeySharding.new d' t).reconstruct_key shards) :=
  ⟨rfl, fun _ _ _ _ => rfl, fun _ _ _ _ => rfl⟩

/-- Claim C3. `unlock` never cross-checks: it uses only the first `threshold`
shards, so any shards beyond the first `threshold` — including a tampered
one — are silently ignored and can never trigger an inconsistency failure. -/
theorem c3_extra_shards_ignored (p : LCS35) (shards : List Bytes) (t : Nat)
    (h : t ≤ shards.length) :
    p.unlock shards t = p.unlock (shards.take t) t := by
  unfold LCS35.unlock
  rw [if_neg (Nat.not_lt.mpr h), if_neg (by simp [List.length_take]; omega),
    List.take_take]
  simp

theorem c3_witness :
    1 ≤ ([[1], [2]] : List Bytes).length ∧
    (LCS35.new 3).unlock [[1], [2]] 1 =
      (LCS35.new 3).unlock (([[1], [2]] : List Bytes).take 1) 1 :=
  ⟨by decide, c3_extra_shards_ignored _ _ _ (by decide)⟩

/-- Claim C4. Reconstruction with fewer than `threshold` shards fails with the
insufficient-shares error and returns no secret, both in
`TimelockKeySharding::reconstruct_key` (`"Need at least {} shards, but only {}
provided"`) and in `LCS35::unlock` (`"Not enough shards provided"`). -/
theorem c4_insufficient_shares :
    (∀ (self : TimelockKeySharding) (shards : List (List Char)),
      shards.length < self.threshold →
      self.reconstruct_key shards =
        .error (.needAtLeast self.threshold shards.length)) ∧
    (∀ (p : LCS35) (shards : List Bytes) (t : Nat),
      shards.length < t → p.unlock shards t = .error .notEnoughShards) := by
  constructor
  · intro self shards h
    unfold TimelockKeySharding.reconstruct_key
    rw [if_pos h]
  · intro p shards t h
    unfold LCS35.unlock
    rw [if_pos h]

theorem c4_witness :
    (([] : List (List Char)).length < (TimelockKeySharding.new 10 3).threshold ∧
      (TimelockKeySharding.new 10 3).reconstruct_key [] =
        .error (.needAtLeast (TimelockKeySharding.new 10 3).threshold
          ([] : List (List Char)).length)) ∧
    (([[5]] : List Bytes).length < 2 ∧
      (LCS35.new 10).unlock [[5]] 2 = .error .notEnoughShards) :=
  ⟨⟨by decide, c4_insufficient_shares.1 _ _ (by decide)⟩,
   ⟨by decide, c4_insufficient_shares.2 _ _ _ (by decide)⟩⟩

/-- Claim C5, counterexample. Supplying the very same share twice (same index
byte `1`) with threshold 2 does not fail with a duplicate-index error — there
is no duplicate check — but returns a secret: the all-zero 32-byte key (each
share XOR-cancels itself). -/
theorem c5_duplicate_shares_accepted :
    (TimelockKeySharding.new 1 2).reconstruct_key
      [hexEncode (List.replicate 33 1), hexEncode (List.replicate 33 1)] =
      .ok (List.replicate 32 0) := by rfl

/-- Claim C5, amended. Reconstruction performs no duplicate-index check:
duplicated shares are XOR-combined like any others, so with threshold 2 any
share supplied twice cancels itself and `unlock` returns the all-zero key. -/
theorem c5_duplicates_cancel (p : LCS35) (s : Bytes) (rest : List Bytes) :
    p.unlock (s :: s :: rest) 2 = .ok (List.replicate 32 0) := by
  unfold LCS35.unlock
  rw [if_neg (by simp only [List.length_cons]; omega)]
  have ht : (s :: s :: rest).take 2 = [s, s] := by simp
  rw [ht]
  simp only [List.foldl_cons, List.foldl_nil]
  rw [applyShard_applyShard]

set_option maxRecDepth 4000 in
/-- Claim C6, counterexample. A maximally skewed sample — 256 bytes of `0xFF`,
all 2048 bits set, zero-bit ratio `0.0` — is statistically implausible under a
fair coin in the skewed direction, yet `check_borel_regularity` does not flag
it: the code only flags ratios within `0.01` of `0.5`. -/
theorem c6_skewed_sample_not_flagged :
    check_borel_regularity (List.replicate 256 255) = false := by
  have hz : bitZeros (List.replicate 256 255) = 0 := by decide
  have ho : bitOnes (List.replicate 256 255) = 2048 := by decide
  unfold check_borel_regularity
  rw [hz, ho]
  norm_num [fabs, decide_eq_false_iff_not]

/-- The function `fabs` agrees with the mathematical absolute value. -/
lemma fabs_eq_abs (q : ℚ) : fabs q = |q| := by
  unfold fabs
  split
  · rename_i hq; rw [abs_of_neg hq]
  · rename_i hq; rw [abs_of_nonneg (not_lt.mp hq)]

/-- Claim C6, amended. `check_borel_regularity` flags exactly the samples whose
zero-bit ratio lies strictly within the fixed window `0.01` of `0.5` (the
"too perfectly balanced" direction only), equivalently, in exact integer
arithmetic: `100·|2·zeros − total| < 2·total`. Skewed ratios are never
flagged, and no standard-deviation-based bound is used. -/
theorem c6_fixed_window_characterization (data : Bytes) :
    check_borel_regularity data = true ↔
      100 * |2 * (bitZeros data : ℤ) - ((bitZeros data : ℤ) + (bitOnes data : ℤ))| <
        2 * ((bitZeros data : ℤ) + (bitOnes data : ℤ)) := by
  unfold check_borel_regularity
  rw [decide_eq_true_eq, fabs_eq_abs]
  rcases Nat.eq_zero_or_pos (bitZeros data + bitOnes data) with h0 | hpos
  · have hz : bitZeros data = 0 := by omega
    have ho : bitOnes data = 0 := by omega
    rw [hz, ho]
    norm_num
    rw [abs_of_pos] <;> norm_num
  · have htq : (0 : ℚ) < (bitZeros data : ℚ) + (bitOnes data : ℚ) := by
      exact_mod_cast hpos
    have hcast : ((bitZeros data + bitOnes data : ℕ) : ℚ) =
        (bitZeros data : ℚ) + (bitOnes data : ℚ) := by push_cast; ring
    rw [hcast]
    have key : (bitZeros data : ℚ) / ((bitZeros data : ℚ) + (bitOnes data : ℚ)) - 1 / 2 =
        (2 * (bitZeros data : ℚ) - ((bitZeros data : ℚ) + (bitOnes data : ℚ))) /
          (2 * ((bitZeros data : ℚ) + (bitOnes data : ℚ))) := by
      field_simp
      ring
    have habs2 : |2 * ((bitZeros data : ℚ) + (bitOnes data : ℚ))| =
        2 * ((bitZeros data : ℚ) + (bitOnes data : ℚ)) := abs_of_pos (by linarith)
    have hq : ((|2 * (bitZeros data : ℤ) - ((bitZeros data : ℤ) + (bitOnes data : ℤ))| : ℤ) : ℚ) =
        |2 * (bitZeros data : ℚ) - ((bitZeros data : ℚ) + (bitOnes data : ℚ))| := by
      push_cast
      ring_nf
    rw [key, abs_div, habs2,
      div_lt_div_iff₀ (by linarith) (by norm_num : (0 : ℚ) < 100), ← hq]
    rw [show (1 : ℚ) * (2 * ((bitZeros data : ℚ) + (bitOnes data : ℚ))) =
        ((2 * ((bitZeros data : ℤ) + (bitOnes data : ℤ)) : ℤ) : ℚ) by push_cast; ring]
    rw [show ((|2 * (bitZeros data : ℤ) - ((bitZeros data : ℤ) + (bitOnes data : ℤ))| : ℤ) : ℚ) * 100 =
        ((100 * |2 * (bitZeros data : ℤ) - ((bitZeros data : ℤ) + (bitOnes data : ℤ))| : ℤ) : ℚ) by
      push_cast; ring]
    exact Int.cast_lt

/-- Claim C7. The Shannon entropy of any 256-byte buffer consisting of a single
repeated byte value is exactly `0`: the one occurring byte has probability 1
and `log2 1 = 0`, all other byte values contribute nothing. -/
theorem c7_constant_entropy_zero (v : Fin 256) :
    calculate_entropy (List.replicate 256 (v : Nat)) = 0 := by
  unfold calculate_entropy
  rw [neg_eq_zero]
  apply Finset.sum_eq_zero
  intro b _
  rcases eq_or_ne b (v : Nat) with hbv | hbv
  · have hc : (List.replicate 256 (v : Nat)).count b = 256 := by
      rw [List.count_replicate]
      simp [hbv]
    rw [hc]
    norm_num [List.length_replicate, Real.logb_one]
  · have hc : (List.replicate 256 (v : Nat)).count b = 0 := by
      rw [List.count_replicate]
      simp [hbv, Ne.symm hbv]
    rw [hc]
    norm_num

/-- Claim C8, counterexample. `TimelockKeySharding::new(10, 5)` accepts a
threshold of 5, and `shard_key` with `num_shards = 3 < threshold` does not fail
with any parameter error: it happily produces 3 shares. -/
theorem c8_undersized_shard_count_accepted :
    ((TimelockKeySharding.new 10 5).shard_key demoKey 3).map List.length =
      some 3 := by
  unfold TimelockKeySharding.shard_key LCS35.shard
  rw [if_neg (by omega)]
  simp [shardList_length]

/-- Claim C8, amended. Neither `new` nor `shard_key` validates the parameters:
for any threshold `t` whatsoever (including `t < 2` and `n < t`), `shard_key`
produces exactly `n` shares whenever `n ≥ 2`, and for `n < 2` it panics inside
`LCS35::shard` (modelled by `none`) instead of returning an
`InvalidParameters` error value. -/
theorem c8_no_parameter_validation :
    (∀ (d t : Nat) (key : Bytes) (n : Nat), 2 ≤ n →
      ∃ l, (TimelockKeySharding.new d t).shard_key key n = some l ∧
        l.length = n) ∧
    (∀ (d t : Nat) (key : Bytes) (n : Nat), n < 2 →
      (TimelockKeySharding.new d t).shard_key key n = none) := by
  constructor
  · intro d t key n h
    refine ⟨(shardList key n).map hexEncode, ?_, by simp [shardList_length]⟩
    unfold TimelockKeySharding.shard_key LCS35.shard
    rw [if_neg (by omega)]
    rfl
  · intro d t key n h
    unfold TimelockKeySharding.shard_key LCS35.shard
    rw [if_pos h]
    rfl

theorem c8_witness :
    (2 ≤ 3 ∧ ∃ l, (TimelockKeySharding.new 10 7).shard_key [] 3 = some l ∧
      l.length = 3) ∧
    (1 < 2 ∧ (TimelockKeySharding.new 10 7).shard_key [] 1 = none) :=
  ⟨⟨by decide, c8_no_parameter_validation.1 10 7 [] 3 (by decide)⟩,
   ⟨by decide, c8_no_parameter_validation.2 10 7 [] 1 (by decide)⟩⟩

/-- Claim C9. Share generation draws no randomness and is fully determined by
its arguments: `LCS35::shard`'s result does not even depend on the puzzle
(difficulty/iterations); the computed-then-discarded coefficient list is
`num_shards − 1` copies of the SHA-256 digest of the key and the iteration
count; and the shard at position `i` is a function of the key and the index
byte `(1 + i) as u8` alone. -/
theorem c9_shard_depends_only_on_key_and_index :
    (∀ (p q : LCS35) (key : Bytes) (n : Nat), p.shard key n = q.shard key n) ∧
    (∀ (p : LCS35) (key : Bytes) (n : Nat),
      p.shardCoefficients key n =
        List.replicate (n - 1) (sha256 (key ++ leBytes8 p.iterations))) ∧
    (∀ (key : Bytes) (n i : Nat), i < n →
      (shardList key n)[i]? = some (shardOne key ((1 + i) % 256))) := by
  refine ⟨fun p q key n => rfl, fun p key n => ?_, fun key n i h => ?_⟩
  · unfold LCS35.shardCoefficients
    rw [List.map_const']
    simp
  · unfold shardList
    have hi : i < ((List.range' 1 n).map (fun j => shardOne key (j % 256))).length := by
      simp [h]
    rw [List.getElem?_eq_getElem hi, List.getElem_map, List.getElem_range'_1]

theorem c9_witness :
    0 < 1 ∧ (shardList [] 1)[0]? = some (shardOne [] ((1 + 0) % 256)) :=
  ⟨by decide, c9_shard_depends_only_on_key_and_index.2.2 [] 1 0 (by decide)⟩

/-- Claim C10. Whenever at least `threshold` shards are supplied, all of them
hex-decode, and the 32 combined bytes are not well-formed UTF-8,
`reconstruct_key` fails with the `"Reconstructed key is not valid UTF-8"`
error instead of returning a secret. -/
theorem c10_invalid_utf8_rejected (self : TimelockKeySharding)
    (shards : List (List Char)) (bins : List Bytes)
    (hlen : self.threshold ≤ shards.length)
    (hdec : decodeAll shards = some bins)
    (hutf : validUtf8 ((bins.take self.threshold).foldl applyShard
      (List.replicate 32 0)) = false) :
    self.reconstruct_key shards = .error .notUtf8 := by
  unfold TimelockKeySharding.reconstruct_key
  rw [if_neg (Nat.not_lt.mpr hlen), hdec]
  show (match (LCS35.new self.difficulty).unlock bins self.threshold with
    | .error e => (.error e : Except RErr Bytes)
    | .ok keyBytes =>
      if validUtf8 keyBytes then .ok keyBytes else .error .notUtf8) =
    .error .notUtf8
  have hbl : ¬(bins.length < self.threshold) := by
    rw [decodeAll_length hdec]
    omega
  unfold LCS35.unlock
  rw [if_neg hbl]
  show (if validUtf8 ((bins.take self.threshold).foldl applyShard
      (List.replicate 32 0)) then
    (.ok ((bins.take self.threshold).foldl applyShard (List.replicate 32 0)) :
      Except RErr Bytes)
    else .error .notUtf8) = .error .notUtf8
  rw [hutf]
  simp

theorem c10_witness :
    (TimelockKeySharding.new 9 2).threshold ≤
      ([hexEncode [3, 255], hexEncode [3, 0]] : List (List Char)).length ∧
    decodeAll [hexEncode [3, 255], hexEncode [3, 0]] = some [[3, 255], [3, 0]] ∧
    validUtf8 ((([[3, 255], [3, 0]] : List Bytes).take
      (TimelockKeySharding.new 9 2).threshold).foldl applyShard
      (List.replicate 32 0)) = false ∧
    (TimelockKeySharding.new 9 2).reconstruct_key
      [hexEncode [3, 255], hexEncode [3, 0]] = .error .notUtf8 :=
  ⟨by decide, by rfl, by rfl,
   c10_invalid_utf8_rejected _ _ _ (by decide) (by rfl) (by rfl)⟩

end Timelock
